/-
Verification of the guest-test-linux build pipeline against its
natural-language specification.

The development shallowly embeds the parts of the Rust sources that the
checked properties are about:

* `src/busybox.rs` (build_busybox_for_config, lines 88-114): the textual
  patching of the generated busybox `.config`.  Rust text is modelled as
  `List Char`; `str::lines` (splitting at `\n`, stripping one `\r` from a
  line that was terminated by `\n`) and `join("\n")` are modelled exactly.
* `src/rootfs.rs` (create_rootfs_for_config, create_rootfs_image): the
  rootfs assembly, modelled as a function from an environment recording
  each external command's outcome to the trace of performed steps.
* `src/system.rs` (get_arch_config): toolchain resolution, with the
  `which`-probe for the cross compiler passed in as an oracle.
* `src/kernel.rs` (build_linux_for_config, copy_kernel_image): kernel
  build sequencing and the kernel-image copy, again as traces.
* `src/config.rs` (parse_config_name, is_valid_config): configuration-name
  parsing, with the filesystem-existence check passed in as an oracle.
-/
import Mathlib

/-- Characters of a string literal; Rust `&str` values are modelled as `List Char`. -/
def lit (s : String) : List Char := s.data

/-- Prepend a character to the first chunk of a split (helper for `splitOnChar`). -/
def consHead (c : Char) : List (List Char) → List (List Char)
  | [] => [[c]]
  | l :: ls => (c :: l) :: ls

/-- Split a character list at every occurrence of `sep`, keeping empty chunks
(the semantics of Rust `str::split(sep)`): the result is always nonempty and
has one chunk more than there are separators. -/
def splitOnChar (sep : Char) : List Char → List (List Char)
  | [] => [[]]
  | c :: cs =>
    if c = sep then [] :: splitOnChar sep cs
    else consHead c (splitOnChar sep cs)

/-- Join chunks with a single separator character (the semantics of Rust
`[&str]::join` with a one-character separator). -/
def joinSep (sep : Char) : List (List Char) → List Char
  | [] => []
  | [l] => l
  | l :: l' :: ls => l ++ sep :: joinSep sep (l' :: ls)

/-- Remove one trailing carriage return, if present (Rust `strip_suffix('\r')`
as used by `str::lines`). -/
def stripCR (l : List Char) : List Char :=
  if l.getLast? = some '\r' then l.dropLast else l

/-- Rust `str::lines`: split at `'\n'`; a final empty chunk (text ended with a
newline) produces no line; every line that was terminated by `'\n'` has one
trailing `'\r'` removed; an unterminated final line is kept verbatim. -/
def rustLines (s : List Char) : List (List Char) :=
  match (splitOnChar '\n' s).getLast? with
  | some [] => (splitOnChar '\n' s).dropLast.map stripCR
  | some l => (splitOnChar '\n' s).dropLast.map stripCR ++ [l]
  | none => []

/-- Substring test (Rust `str::contains(&str)`). -/
def containsSeq (pat s : List Char) : Bool :=
  s.tails.any fun t => pat.isPrefixOf t

/-! ### The busybox `.config` patcher (src/busybox.rs, lines 91-112) -/

/-- Disabled marker for CONFIG_STATIC. -/
def staticOff : List Char := lit "# CONFIG_STATIC is not set"

/-- Enabled marker for CONFIG_STATIC. -/
def staticOn : List Char := lit "CONFIG_STATIC=y"

/-- Enabled marker for CONFIG_FEATURE_SHARED_BUSYBOX. -/
def sharedOn : List Char := lit "CONFIG_FEATURE_SHARED_BUSYBOX=y"

/-- Disabled marker for CONFIG_FEATURE_SHARED_BUSYBOX. -/
def sharedOff : List Char := lit "# CONFIG_FEATURE_SHARED_BUSYBOX is not set"

/-- Enabled marker for CONFIG_TC. -/
def tcOn : List Char := lit "CONFIG_TC=y"

/-- Disabled marker for CONFIG_TC. -/
def tcOff : List Char := lit "# CONFIG_TC is not set"

/-- Per-line rewriting of the busybox configuration, from the closure passed
to `.map` in build_busybox_for_config (src/busybox.rs 93-103): a line starting
with the disabled CONFIG_STATIC marker becomes the enabled form, lines
starting with the enabled CONFIG_FEATURE_SHARED_BUSYBOX or CONFIG_TC markers
become their disabled forms, every other line is kept. -/
def patchLine (l : List Char) : List Char :=
  if staticOff.isPrefixOf l then staticOn
  else if sharedOn.isPrefixOf l then sharedOff
  else if tcOn.isPrefixOf l then tcOff
  else l

/-- Core of the whole-text patching, applied to the line sequence produced by
`lines()`: map `patchLine` over the lines, re-join with `"\n"`, and if the
result does not contain the substring `CONFIG_STATIC=y`, append
`"\nCONFIG_STATIC=y\n"` (the Rust `format!` with a trailing newline),
src/busybox.rs 91-112. -/
def pcCore (L : List (List Char)) : List Char :=
  let body := joinSep '\n' (L.map patchLine)
  if containsSeq staticOn body then body
  else body ++ '\n' :: (staticOn ++ ['\n'])

/-- Whole-text patching from build_busybox_for_config (src/busybox.rs 91-112):
`pcCore` applied to the `lines()` of the configuration text. -/
def patchConfig (s : List Char) : List Char :=
  pcCore (rustLines s)

/-! ### Image sizing (src/rootfs.rs, lines 228-234) -/

/-- Image size computation of create_rootfs_image (src/rootfs.rs 229-234).
The source computes `(base as f64 * 1.3).ceil() as u64` and then raises the
result to `base + 200` when it is smaller.  The floating-point multiplication
by 1.3 followed by `ceil` is modelled as the exact rational ceiling
`⌈13·base/10⌉ = (13*base + 9)/10`; the two agree on every staging size a
`du -sm` of a real tree can produce. -/
def imageSizeMB (base : Nat) : Nat :=
  let m := (13 * base + 9) / 10
  if m < base + 200 then base + 200 else m

/-! ### Toolchain resolution (src/system.rs, lines 19-68) -/

/-- Result of get_arch_config: the kernel ARCH value, the optional
CROSS_COMPILE value, and the warnings printed while deciding (the source
prints them with eprintln). -/
structure ArchResult where
  kernelArch : List Char
  crossComp : Option (List Char)
  warnings : List (List Char)
deriving DecidableEq

/-- The kernel-ARCH lookup of get_arch_config (src/system.rs 21-26): "x86"
becomes "x86_64", "arm64" stays "arm64", every other tag passes through. -/
def kernelArchName (targetArch : List Char) : List Char :=
  if targetArch = lit "x86" then lit "x86_64"
  else if targetArch = lit "arm64" then lit "arm64"
  else targetArch

/-- get_arch_config (src/system.rs 19-68).  `probeOk` is the ambient
`which <binary>` search-path probe, passed in as an oracle.  The match arms
of the source are tried in order: native x86 (host starts with "x86_64" or
equals "i686"), native arm64 (host "aarch64"), cross arm64 (fixed prefix
regardless of the probe, warning when the probe fails), cross x86 (fixed
prefix when the probe succeeds, otherwise no prefix and a warning), and the
default arm (no prefix). -/
def getArchConfig (targetArch hostArch : List Char) (probeOk : List Char → Bool) :
    ArchResult :=
  if targetArch = lit "x86" ∧
      ((lit "x86_64").isPrefixOf hostArch = true ∨ hostArch = lit "i686") then
    ⟨kernelArchName targetArch, none, []⟩
  else if targetArch = lit "arm64" ∧ hostArch = lit "aarch64" then
    ⟨kernelArchName targetArch, none, []⟩
  else if targetArch = lit "arm64" then
    if probeOk (lit "aarch64-linux-gnu-gcc") then
      ⟨kernelArchName targetArch, some (lit "aarch64-linux-gnu-"), []⟩
    else
      ⟨kernelArchName targetArch, some (lit "aarch64-linux-gnu-"),
        [lit "Warning: aarch64-linux-gnu-gcc not found, cross-compilation may fail"]⟩
  else if targetArch = lit "x86" then
    if probeOk (lit "x86_64-linux-gnu-gcc") then
      ⟨kernelArchName targetArch, some (lit "x86_64-linux-gnu-"), []⟩
    else
      ⟨kernelArchName targetArch, none,
        [lit "Warning: x86_64-linux-gnu-gcc not found, trying native compilation"]⟩
  else ⟨kernelArchName targetArch, none, []⟩

/-! ### Configuration names (src/config.rs) -/

/-- parse_config_name (src/config.rs 65-70): split the name at `'-'`, the
first component is the architecture, the remaining components re-joined with
`"-"` are the variant name. -/
def parseConfigName (configName : List Char) : List Char × List Char :=
  match splitOnChar '-' configName with
  | [] => ([], [])
  | p :: ps => (p, joinSep '-' ps)

/-- is_valid_config (src/config.rs 5-16): names with fewer than two
`'-'`-separated components are invalid outright; otherwise the per-arch
config file's existence decides.  `fsExists arch name` is the
`config/<arch>/<name>` existence probe, passed in as an oracle. -/
def isValidConfig (fsExists : List Char → List Char → Bool)
    (configName : List Char) : Bool :=
  let parts := splitOnChar '-' configName
  if parts.length < 2 then false
  else
    match parts with
    | [] => false
    | p :: ps => fsExists p (joinSep '-' ps)

/-! ### Kernel build (src/kernel.rs) -/

/-- Observable steps of build_linux_for_config and copy_kernel_image.
`copyImage` records the source and destination paths (as segment lists) of
the kernel-image copy. -/
inductive KStep where
  | reportConfigNotFound
  | mkBuildDir
  | copyConfigFile
  | runMake
  | msgMakeFail
  | mkOutputDir
  | warnUnsupportedArch
  | warnImageNotFound
  | copyImage (src dst : List (List Char))
  | msgImageCopied
  | msgImageCopyFail
  | busyboxAndRootfs
deriving DecidableEq

/-- Outcomes of the external effects build_linux_for_config depends on. -/
structure KernelEnv where
  configExists : Bool
  makeOk : Bool
  imageExists : Bool
  imageCopyOk : Bool
deriving DecidableEq

/-- kernel_target selection (src/kernel.rs 30-34): "Image" for arm64,
"bzImage" for x86, and "bzImage" as the default for other architectures. -/
def kernelTargetFor (arch : List Char) : List Char :=
  if arch = lit "arm64" then lit "Image"
  else if arch = lit "x86" then lit "bzImage"
  else lit "bzImage"

/-- Steps of the copy attempt once copy_kernel_image has fixed the source
path (src/kernel.rs 111-133): bail out with a warning when the image is
absent, otherwise copy and report the copy's outcome. -/
def copyImageSteps (src dst : List (List Char)) (e : KernelEnv) : List KStep :=
  if e.imageExists = false then [KStep.warnImageNotFound]
  else
    KStep.copyImage src dst ::
      (if e.imageCopyOk then [KStep.msgImageCopied] else [KStep.msgImageCopyFail])

/-- copy_kernel_image (src/kernel.rs 81-134): create the output directory,
then match on the architecture: arm64 copies from
`<buildDir>/arch/arm64/boot/Image`, x86 from `<buildDir>/arch/x86/boot/bzImage`,
any other architecture only prints an unsupported-architecture message; the
destination is `build/<configName>/<target>`. -/
def copyKernelImage (configName arch target : List Char)
    (buildDir : List (List Char)) (e : KernelEnv) : List KStep :=
  KStep.mkOutputDir ::
    (if arch = lit "arm64" then
      copyImageSteps (buildDir ++ [lit "arch", lit "arm64", lit "boot", lit "Image"])
        [lit "build", configName, target] e
    else if arch = lit "x86" then
      copyImageSteps (buildDir ++ [lit "arch", lit "x86", lit "boot", lit "bzImage"])
        [lit "build", configName, target] e
    else [KStep.warnUnsupportedArch])

/-- build_linux_for_config (src/kernel.rs 8-78) as a step trace: when the
seed config file is absent, report and return at once; otherwise create the
build directory, copy the config, run make (reporting and stopping on
failure), copy the kernel image, and finally hand over to the busybox/rootfs
stage.  Command arguments that no checked property mentions (make's `-j`,
ARCH and CROSS_COMPILE values) are not recorded in the trace. -/
def buildLinuxForConfig (configName : List Char) (e : KernelEnv) : List KStep :=
  let arch := (parseConfigName configName).1
  let target := kernelTargetFor arch
  if e.configExists = false then [KStep.reportConfigNotFound]
  else
    KStep.mkBuildDir :: KStep.copyConfigFile :: KStep.runMake ::
      (if e.makeOk = false then [KStep.msgMakeFail]
      else
        copyKernelImage configName arch target [lit "build", configName, lit "linux"] e
          ++ [KStep.busyboxAndRootfs])

/-! ### Rootfs assembly (src/rootfs.rs) -/

/-- Observable steps of create_rootfs_for_config, create_init_script and
create_rootfs_image. -/
inductive RfStep where
  | rmStagingDir
  | mkStagingDir
  | busyboxInstallRun
  | msgBusyboxInstallFail
  | lsDebug
  | mkScaffoldDirs
  | findDebug
  | mkModulesDir
  | modulesInstallRun
  | msgModulesInstallFail
  | writeInitScript
  | chmodInit
  | warnChmodInitFail
  | mkBootDir
  | warnMkBootDirFail
  | copyBootImage
  | msgBootCopied
  | warnBootCopyFail
  | msgNoBootImage
  | ddRun
  | msgDdFail
  | mkfsRun
  | msgMkfsFail
  | mkMountDir
  | mountRun
  | msgMountFail
  | warnEmptyRootfs
  | copyRun
  | chownRun
  | msgChownOk
  | warnChownFail
  | umountRun
  | rmMountDir
  | msgImgSuccess
  | msgCopyFail
deriving DecidableEq

/-- Outcomes of the external commands create_rootfs_image runs.  `copyStatus`
is the `Result<ExitStatus>` of the copy shell command: `none` models a spawn
error, `some b` an exit with success flag `b` (the source checks
`status.is_ok() && status.unwrap().success()`). -/
structure ImgEnv where
  ddOk : Bool
  mkfsOk : Bool
  mountOk : Bool
  rootfsHasContent : Bool
  copyStatus : Option Bool
  chownOk : Bool
deriving DecidableEq

/-- create_rootfs_image (src/rootfs.rs 224-349) as a step trace: allocate
with dd (fatal on failure), format with mkfs.ext4 (fatal), create the mount
point and loop-mount (fatal), warn when the staging tree is empty, run the
copy, on a successful copy run chown (warning only on failure), then always
run umount exactly once, remove the mount point, and report success exactly
when the copy command ran and exited successfully. -/
def createRootfsImage (e : ImgEnv) : List RfStep :=
  RfStep.ddRun ::
    (if e.ddOk = false then [RfStep.msgDdFail]
    else
      RfStep.mkfsRun ::
        (if e.mkfsOk = false then [RfStep.msgMkfsFail]
        else
          RfStep.mkMountDir :: RfStep.mountRun ::
            (if e.mountOk = false then [RfStep.msgMountFail]
            else
              (if e.rootfsHasContent = false then [RfStep.warnEmptyRootfs] else [])
                ++ RfStep.copyRun ::
                  ((if e.copyStatus = some true then
                      RfStep.chownRun ::
                        (if e.chownOk = false then [RfStep.warnChownFail]
                        else [RfStep.msgChownOk])
                    else [])
                    ++ [RfStep.umountRun, RfStep.rmMountDir]
                    ++ (if e.copyStatus = some true then [RfStep.msgImgSuccess]
                        else [RfStep.msgCopyFail])))))

/-- Outcomes of the external effects of create_rootfs_for_config.
`bootA..bootD` are the existence probes for the four candidate kernel-image
paths tried in order (arch/arm64/boot/Image, arch/x86/boot/bzImage, Image,
bzImage under the linux build directory). -/
structure RootfsEnv where
  stagingExisted : Bool
  busyboxInstallOk : Bool
  modulesInstallOk : Bool
  initChmodOk : Bool
  bootA : Bool
  bootB : Bool
  bootC : Bool
  bootD : Bool
  mkBootDirOk : Bool
  bootCopyOk : Bool
  img : ImgEnv
deriving DecidableEq

/-- create_init_script (src/rootfs.rs 6-21): write the init script, chmod it
executable, warn when chmod exits unsuccessfully. -/
def createInitScript (chmodOk : Bool) : List RfStep :=
  RfStep.writeInitScript :: RfStep.chmodInit ::
    (if chmodOk then [] else [RfStep.warnChmodInitFail])

/-- First existing candidate kernel image (src/rootfs.rs 176-197). -/
def firstBootImage (e : RootfsEnv) : Option (Fin 4) :=
  if e.bootA then some 0
  else if e.bootB then some 1
  else if e.bootC then some 2
  else if e.bootD then some 3
  else none

/-- Copy of the found kernel image into the staging tree's boot directory
(src/rootfs.rs 199-217). -/
def bootImageSteps (e : RootfsEnv) : List RfStep :=
  match firstBootImage e with
  | none => [RfStep.msgNoBootImage]
  | some _ =>
    RfStep.mkBootDir ::
      (if e.mkBootDirOk = false then [RfStep.warnMkBootDirFail]
      else
        RfStep.copyBootImage ::
          (if e.bootCopyOk then [RfStep.msgBootCopied] else [RfStep.warnBootCopyFail]))

/-- create_rootfs_for_config (src/rootfs.rs 65-221) as a step trace: wipe and
recreate the staging tree, install busybox (fatal on failure), scaffold the
OS directories, install kernel modules (warning only on failure), write the
init script, copy a found kernel image into boot, and assemble the image. -/
def createRootfsForConfig (e : RootfsEnv) : List RfStep :=
  (if e.stagingExisted then [RfStep.rmStagingDir] else [])
    ++ RfStep.mkStagingDir :: RfStep.busyboxInstallRun ::
      (if e.busyboxInstallOk = false then [RfStep.msgBusyboxInstallFail]
      else
        RfStep.lsDebug :: RfStep.mkScaffoldDirs :: RfStep.findDebug ::
          RfStep.mkModulesDir :: RfStep.modulesInstallRun ::
            ((if e.modulesInstallOk = false then [RfStep.msgModulesInstallFail] else [])
              ++ createInitScript e.initChmodOk
              ++ bootImageSteps e
              ++ createRootfsImage e.img))

/-- All steps of create_rootfs_for_config that precede the call to
create_rootfs_image, on the path where the busybox install succeeded. -/
def rootfsLead (e : RootfsEnv) : List RfStep :=
  (if e.stagingExisted then [RfStep.rmStagingDir] else []) ++
    RfStep.mkStagingDir :: RfStep.busyboxInstallRun ::
    RfStep.lsDebug :: RfStep.mkScaffoldDirs :: RfStep.findDebug ::
    RfStep.mkModulesDir :: RfStep.modulesInstallRun ::
    ((if e.modulesInstallOk = false then [RfStep.msgModulesInstallFail] else []) ++
      createInitScript e.initChmodOk ++ bootImageSteps e)

/-- Recognizer for the kernel-image copy event. -/
def isCopyImage : KStep → Bool
  | KStep.copyImage _ _ => true
  | _ => false

/-! ### Lemmas about splitting and joining -/

theorem splitOnChar_ne_nil (sep : Char) (s : List Char) : splitOnChar sep s ≠ [] := by
  induction s with
  | nil => simp [splitOnChar]
  | cons c cs ih =>
    simp only [splitOnChar]
    split
    · simp
    · cases h : splitOnChar sep cs with
      | nil => simp [consHead]
      | cons l ls => simp [consHead]

theorem mem_splitOnChar_not_sep {sep : Char} {s : List Char} :
    ∀ l ∈ splitOnChar sep s, sep ∉ l := by
  induction s with
  | nil => simp [splitOnChar]
  | cons c cs ih =>
    simp only [splitOnChar]
    split
    · intro l hl
      rcases List.mem_cons.mp hl with rfl | hl
      · simp
      · exact ih l hl
    · rename_i hc
      cases h : splitOnChar sep cs with
      | nil => exact absurd h (splitOnChar_ne_nil sep cs)
      | cons m ms =>
        intro l hl
        simp only [consHead] at hl
        rcases List.mem_cons.mp hl with rfl | hl
        · intro hmem
          rcases List.mem_cons.mp hmem with rfl | hmem
          · exact hc rfl
          · exact ih m (h ▸ List.mem_cons_self m ms) hmem
        · exact ih l (h ▸ List.mem_cons_of_mem m hl)

theorem splitOnChar_no_sep {sep : Char} {a : List Char} (h : sep ∉ a) :
    splitOnChar sep a = [a] := by
  induction a with
  | nil => simp [splitOnChar]
  | cons c cs ih =>
    simp only [List.mem_cons, not_or] at h
    have hc : ¬ c = sep := fun hc => h.1 hc.symm
    simp only [splitOnChar, if_neg hc, ih h.2, consHead]

theorem splitOnChar_append_sep {sep : Char} {a b : List Char} (h : sep ∉ a) :
    splitOnChar sep (a ++ sep :: b) = a :: splitOnChar sep b := by
  induction a with
  | nil => simp [splitOnChar]
  | cons c cs ih =>
    simp only [List.mem_cons, not_or] at h
    have hc : ¬ c = sep := fun hc => h.1 hc.symm
    simp only [List.cons_append, splitOnChar, if_neg hc, List.append_eq, ih h.2, consHead]

theorem joinSep_cons (sep : Char) (l : List Char) {ls : List (List Char)}
    (h : ls ≠ []) : joinSep sep (l :: ls) = l ++ sep :: joinSep sep ls := by
  cases ls with
  | nil => exact absurd rfl h
  | cons l' ls' => rfl

theorem splitOnChar_joinSep {sep : Char} {M : List (List Char)} (hM : M ≠ [])
    (h : ∀ l ∈ M, sep ∉ l) : splitOnChar sep (joinSep sep M) = M := by
  induction M with
  | nil => exact absurd rfl hM
  | cons m ms ih =>
    cases ms with
    | nil =>
      simp only [joinSep]
      exact splitOnChar_no_sep (h m (List.mem_cons_self m []))
    | cons m' ms' =>
      rw [joinSep_cons sep m (by simp)]
      rw [splitOnChar_append_sep (h m (List.mem_cons_self m _))]
      rw [ih (by simp) (fun l hl => h l (List.mem_cons_of_mem m hl))]

theorem joinSep_append_single (sep : Char) {M : List (List Char)} (hM : M ≠ [])
    (m : List Char) : joinSep sep (M ++ [m]) = joinSep sep M ++ sep :: m := by
  induction M with
  | nil => exact absurd rfl hM
  | cons a ms ih =>
    cases ms with
    | nil => simp [joinSep]
    | cons a' ms' =>
      rw [List.cons_append, joinSep_cons sep a (by simp),
        joinSep_cons sep a (by simp), ih (by simp)]
      simp

theorem stripCR_of_getLast_ne {l : List Char} (h : l.getLast? ≠ some '\r') :
    stripCR l = l := by
  simp [stripCR, h]

theorem map_stripCR_id {A : List (List Char)}
    (h : ∀ l ∈ A, l.getLast? ≠ some '\r') : A.map stripCR = A := by
  induction A with
  | nil => rfl
  | cons a as ih =>
    simp only [List.map_cons,
      stripCR_of_getLast_ne (h a (List.mem_cons_self a as)), List.cons.injEq, true_and]
    exact ih fun l hl => h l (List.mem_cons_of_mem a hl)

theorem eq_dropLast_append_of_getLast? {α : Type} {A : List α} {a : α}
    (h : A.getLast? = some a) : A = A.dropLast ++ [a] := by
  cases A with
  | nil => simp at h
  | cons x xs =>
    have hne : x :: xs ≠ [] := by simp
    rw [List.getLast?_eq_getLast _ hne, Option.some_inj] at h
    rw [← h]
    exact (List.dropLast_append_getLast hne).symm

/-! ### Lemmas about the substring test -/

theorem containsSeq_iff {pat s : List Char} :
    containsSeq pat s = true ↔ pat <:+: s := by
  simp only [containsSeq, List.any_eq_true, List.mem_tails]
  constructor
  · rintro ⟨t, hts, hp⟩
    exact List.infix_iff_prefix_suffix.mpr ⟨t, List.isPrefixOf_iff_prefix.mp hp, hts⟩
  · intro h
    obtain ⟨t, hp, hts⟩ := List.infix_iff_prefix_suffix.mp h
    exact ⟨t, hts, List.isPrefixOf_iff_prefix.mpr hp⟩

theorem containsSeq_append_self (pat a b : List Char) :
    containsSeq pat (a ++ pat ++ b) = true :=
  containsSeq_iff.mpr ⟨a, b, rfl⟩

theorem containsSeq_drop_last {pat w : List Char} {c : Char} (hc : c ∉ pat)
    (h : containsSeq pat (w ++ [c]) = true) : containsSeq pat w = true := by
  obtain ⟨a, b, hab⟩ := containsSeq_iff.mp h
  rcases b.eq_nil_or_concat with rfl | ⟨b', c', rfl⟩
  · rcases pat.eq_nil_or_concat with rfl | ⟨p', d, rfl⟩
    · exact containsSeq_iff.mpr List.nil_infix
    · exfalso
      apply hc
      simp only [List.concat_eq_append, List.append_nil] at hab ⊢
      have hlast := congrArg List.getLast? hab
      rw [← List.append_assoc] at hlast
      simp only [List.getLast?_concat, Option.some_inj] at hlast
      simp [← hlast]
  · simp only [List.concat_eq_append] at hab
    have hdrop := congrArg List.dropLast hab
    simp only [← List.append_assoc, List.dropLast_concat] at hdrop
    exact containsSeq_iff.mpr ⟨a, b', by rw [← hdrop, List.append_assoc]⟩

/-! ### Lemmas about patchLine -/

/-- A line matches none of the three recognized markers. -/
def noMarkerHead (l : List Char) : Bool :=
  !(staticOff.isPrefixOf l) && !(sharedOn.isPrefixOf l) && !(tcOn.isPrefixOf l)

theorem patchLine_id {l : List Char} (h : noMarkerHead l = true) :
    patchLine l = l := by
  simp only [noMarkerHead, Bool.and_eq_true, Bool.not_eq_true'] at h
  simp [patchLine, h.1.1, h.1.2, h.2]

theorem patchLine_noMarkerHead (l : List Char) :
    noMarkerHead (patchLine l) = true := by
  unfold patchLine
  split
  · decide
  · split
    · decide
    · split
      · decide
      · rename_i h1 h2 h3
        simp [noMarkerHead, h1, h2, h3]

theorem patchLine_no_nl {l : List Char} (h : '\n' ∉ l) : '\n' ∉ patchLine l := by
  unfold patchLine
  split
  · decide
  · split
    · decide
    · split
      · decide
      · exact h

theorem patchLine_no_cr {l : List Char} (h : l.getLast? ≠ some '\r') :
    (patchLine l).getLast? ≠ some '\r' := by
  unfold patchLine
  split
  · decide
  · split
    · decide
    · split
      · decide
      · exact h

theorem patchLine_eq_nil {l : List Char} (h : patchLine l = []) : l = [] := by
  unfold patchLine at h
  split at h
  · exact absurd h (by decide)
  · split at h
    · exact absurd h (by decide)
    · split at h
      · exact absurd h (by decide)
      · exact h

/-! ### Lemmas about rustLines -/

theorem rustLines_of_getLast_nil {s : List Char}
    (h : (splitOnChar '\n' s).getLast? = some []) :
    rustLines s = (splitOnChar '\n' s).dropLast.map stripCR := by
  unfold rustLines
  rw [h]

theorem rustLines_of_getLast_cons {s : List Char} {c : Char} {l : List Char}
    (h : (splitOnChar '\n' s).getLast? = some (c :: l)) :
    rustLines s = (splitOnChar '\n' s).dropLast.map stripCR ++ [c :: l] := by
  unfold rustLines
  rw [h]

theorem stripCR_subset (m : List Char) : stripCR m ⊆ m := by
  unfold stripCR
  split
  · exact (List.dropLast_sublist m).subset
  · exact fun _ h => h

theorem mem_rustLines_no_nl {s : List Char} : ∀ l ∈ rustLines s, '\n' ∉ l := by
  intro l hl hnl
  have source : ∃ m ∈ splitOnChar '\n' s, '\n' ∈ m := by
    unfold rustLines at hl
    cases h : (splitOnChar '\n' s).getLast? with
    | none => rw [h] at hl; simp at hl
    | some last =>
      cases last with
      | nil =>
        rw [h] at hl
        simp only [List.mem_map] at hl
        obtain ⟨m, hm, rfl⟩ := hl
        exact ⟨m, (List.dropLast_sublist _).subset hm, stripCR_subset m hnl⟩
      | cons c l' =>
        rw [h] at hl
        rcases List.mem_append.mp hl with hl | hl
        · simp only [List.mem_map] at hl
          obtain ⟨m, hm, rfl⟩ := hl
          exact ⟨m, (List.dropLast_sublist _).subset hm, stripCR_subset m hnl⟩
        · simp only [List.mem_singleton] at hl
          subst hl
          refine ⟨c :: l', ?_, hnl⟩
          rw [eq_dropLast_append_of_getLast? h]
          simp
  obtain ⟨m, hm, hnm⟩ := source
  exact mem_splitOnChar_not_sep m hm hnm

theorem map_patchLine_id {A : List (List Char)}
    (h : ∀ m ∈ A, noMarkerHead m = true) : A.map patchLine = A := by
  induction A with
  | nil => rfl
  | cons a as ih =>
    simp only [List.map_cons, patchLine_id (h a (List.mem_cons_self a as)),
      List.cons.injEq, true_and]
    exact ih fun m hm => h m (List.mem_cons_of_mem a hm)

/-! ### Lemmas about getD -/

theorem getD_map_patchLine (A : List (List Char)) (i : Nat) :
    (A.map patchLine).getD i [] = patchLine (A.getD i []) := by
  induction A generalizing i with
  | nil =>
    simp only [List.map_nil, List.getD_nil]
    decide
  | cons a as ih =>
    cases i with
    | zero => simp [List.getD_cons_zero]
    | succ n => simpa [List.getD_cons_succ] using ih n

theorem getD_append_left {A : List (List Char)} (B : List (List Char)) {i : Nat}
    (h : i < A.length) (d : List Char) : (A ++ B).getD i d = A.getD i d := by
  induction A generalizing i with
  | nil => simp at h
  | cons a as ih =>
    cases i with
    | zero => simp
    | succ n =>
      simp only [List.cons_append, List.getD_cons_succ]
      exact ih (by simpa using h)

theorem getD_append_at_length (A : List (List Char)) (x d : List Char) :
    (A ++ [x]).getD A.length d = x := by
  induction A with
  | nil => simp
  | cons a as ih => simp [ih]

theorem getD_of_length_le {A : List (List Char)} {i : Nat}
    (h : A.length ≤ i) (d : List Char) : A.getD i d = d := by
  induction A generalizing i with
  | nil => simp
  | cons a as ih =>
    cases i with
    | zero => simp at h
    | succ n =>
      simp only [List.getD_cons_succ]
      exact ih (by simpa using h)

/-! ### The shape of a patched configuration text -/

theorem pcCore_of_contains {L : List (List Char)}
    (h : containsSeq staticOn (joinSep '\n' (L.map patchLine)) = true) :
    pcCore L = joinSep '\n' (L.map patchLine) := by
  simp [pcCore, h]

theorem pcCore_of_not_contains {L : List (List Char)}
    (h : containsSeq staticOn (joinSep '\n' (L.map patchLine)) = false) :
    pcCore L = joinSep '\n' (L.map patchLine) ++ '\n' :: (staticOn ++ ['\n']) := by
  simp [pcCore, h]

theorem rustLines_joinSep_concat_nil {A : List (List Char)} (hcr : ∀ m ∈ A, m.getLast? ≠ some '\r')
    (hnl : ∀ m ∈ A, '\n' ∉ m) :
    rustLines (joinSep '\n' (A ++ [[]])) = A := by
  have hsplit : splitOnChar '\n' (joinSep '\n' (A ++ [[]])) = A ++ [[]] := by
    refine splitOnChar_joinSep (by simp) ?_
    intro m hm
    rcases List.mem_append.mp hm with h | h
    · exact hnl m h
    · simp only [List.mem_singleton] at h
      subst h
      simp
  have hlast : (splitOnChar '\n' (joinSep '\n' (A ++ [[]]))).getLast? = some [] := by
    rw [hsplit]
    exact List.getLast?_concat A
  rw [rustLines_of_getLast_nil hlast, hsplit, List.dropLast_concat, map_stripCR_id hcr]

theorem rustLines_joinSep_getLast_cons {M : List (List Char)} {c : Char} {l : List Char}
    (hg : M.getLast? = some (c :: l)) (hcr : ∀ m ∈ M, m.getLast? ≠ some '\r')
    (hnl : ∀ m ∈ M, '\n' ∉ m) :
    rustLines (joinSep '\n' M) = M := by
  have hne : M ≠ [] := by
    intro h
    rw [h] at hg
    simp at hg
  have hsplit : splitOnChar '\n' (joinSep '\n' M) = M := splitOnChar_joinSep hne hnl
  have hlast : (splitOnChar '\n' (joinSep '\n' M)).getLast? = some (c :: l) := by
    rw [hsplit]
    exact hg
  rw [rustLines_of_getLast_cons hlast, hsplit,
    map_stripCR_id (fun m hm => hcr m ((List.dropLast_sublist M).subset hm))]
  exact (eq_dropLast_append_of_getLast? hg).symm

theorem rustLines_joinSep_getLast_nil {M : List (List Char)}
    (hg : M.getLast? = some []) (hcr : ∀ m ∈ M, m.getLast? ≠ some '\r')
    (hnl : ∀ m ∈ M, '\n' ∉ m) :
    rustLines (joinSep '\n' M) = M.dropLast := by
  have hD : M = M.dropLast ++ [[]] := eq_dropLast_append_of_getLast? hg
  have hsub : ∀ m ∈ M.dropLast, m ∈ M := fun m hm => (List.dropLast_sublist M).subset hm
  have key : rustLines (joinSep '\n' (M.dropLast ++ [[]])) = M.dropLast :=
    rustLines_joinSep_concat_nil (fun m hm => hcr m (hsub m hm))
      (fun m hm => hnl m (hsub m hm))
  rw [← hD] at key
  exact key

/-- Shape of the line sequence of a once-patched text: with `M` the mapped
lines, either the pass already contained the enabled marker and the output's
lines are `M` itself (or `M.dropLast` when the last line was empty, the
re-join having merged it into a trailing newline), or the marker was appended
and the output's lines are `M ++ [staticOn]` (with an extra leading empty
line when the input had no lines at all). -/
theorem rustLines_pcCore (L : List (List Char)) (h0 : ∀ l ∈ L, '\n' ∉ l)
    (hcr : ∀ l ∈ L, l.getLast? ≠ some '\r') :
    (containsSeq staticOn (joinSep '\n' (L.map patchLine)) = true ∧
      rustLines (pcCore L) = L.map patchLine) ∨
    (containsSeq staticOn (joinSep '\n' (L.map patchLine)) = true ∧
      (L.map patchLine).getLast? = some [] ∧ 2 ≤ (L.map patchLine).length ∧
      rustLines (pcCore L) = (L.map patchLine).dropLast) ∨
    (containsSeq staticOn (joinSep '\n' (L.map patchLine)) = false ∧ L ≠ [] ∧
      rustLines (pcCore L) = L.map patchLine ++ [staticOn]) ∨
    (L = [] ∧ rustLines (pcCore L) = [[], staticOn]) := by
  have hMnl : ∀ m ∈ L.map patchLine, '\n' ∉ m := by
    intro m hm
    obtain ⟨l, hl, rfl⟩ := List.mem_map.mp hm
    exact patchLine_no_nl (h0 l hl)
  have hMcr : ∀ m ∈ L.map patchLine, m.getLast? ≠ some '\r' := by
    intro m hm
    obtain ⟨l, hl, rfl⟩ := List.mem_map.mp hm
    exact patchLine_no_cr (hcr l hl)
  by_cases hL : L = []
  · subst hL
    right; right; right
    exact ⟨rfl, by decide⟩
  · have hMne : L.map patchLine ≠ [] := by simpa using hL
    cases hc : containsSeq staticOn (joinSep '\n' (L.map patchLine)) with
    | false =>
      right; right; left
      refine ⟨rfl, hL, ?_⟩
      rw [pcCore_of_not_contains hc]
      have hjoin : joinSep '\n' (L.map patchLine) ++ '\n' :: (staticOn ++ ['\n']) =
          joinSep '\n' ((L.map patchLine ++ [staticOn]) ++ [[]]) := by
        rw [joinSep_append_single '\n' (by simp) [],
          joinSep_append_single '\n' hMne staticOn]
        simp
      rw [hjoin]
      refine rustLines_joinSep_concat_nil ?_ ?_
      · intro m hm
        rcases List.mem_append.mp hm with h | h
        · exact hMcr m h
        · simp only [List.mem_singleton] at h
          subst h
          decide
      · intro m hm
        rcases List.mem_append.mp hm with h | h
        · exact hMnl m h
        · simp only [List.mem_singleton] at h
          subst h
          decide
    | true =>
      cases hg : (L.map patchLine).getLast? with
      | none =>
        exfalso
        rw [List.getLast?_eq_none_iff] at hg
        exact hMne hg
      | some last =>
        cases last with
        | nil =>
          right; left
          have hM1 : L.map patchLine ≠ [[]] := by
            intro h
            rw [h] at hc
            exact absurd hc (by decide)
          have hlen : 2 ≤ (L.map patchLine).length := by
            cases hML : L.map patchLine with
            | nil => exact absurd hML hMne
            | cons a as =>
              cases as with
              | nil =>
                exfalso
                rw [hML] at hg
                simp only [List.getLast?_singleton, Option.some_inj] at hg
                exact hM1 (by rw [hML, hg])
              | cons b bs => simp
          refine ⟨rfl, rfl, hlen, ?_⟩
          rw [pcCore_of_contains hc]
          exact rustLines_joinSep_getLast_nil hg hMcr hMnl
        | cons c l' =>
          left
          refine ⟨rfl, ?_⟩
          rw [pcCore_of_contains hc]
          exact rustLines_joinSep_getLast_cons hg hMcr hMnl

/-- Applying the patching pass to the lines of a once-patched text gives back
the once-patched text, up to the loss of a final newline. -/
theorem pcCore_twice (L : List (List Char)) (h0 : ∀ l ∈ L, '\n' ∉ l)
    (hcr : ∀ l ∈ L, l.getLast? ≠ some '\r') :
    pcCore (rustLines (pcCore L)) = pcCore L ∨
    pcCore (rustLines (pcCore L)) ++ ['\n'] = pcCore L := by
  have hMun : ∀ m ∈ L.map patchLine, noMarkerHead m = true := by
    intro m hm
    obtain ⟨l, _, rfl⟩ := List.mem_map.mp hm
    exact patchLine_noMarkerHead l
  have hMid := map_patchLine_id hMun
  rcases rustLines_pcCore L h0 hcr with ⟨hc, hr⟩ | ⟨hc, hg, hlen, hr⟩ |
    ⟨hc, hL, hr⟩ | ⟨hL, hr⟩
  · left
    rw [hr]
    calc pcCore (L.map patchLine)
        = joinSep '\n' ((L.map patchLine).map patchLine) :=
          pcCore_of_contains (by rw [hMid]; exact hc)
      _ = joinSep '\n' (L.map patchLine) := by rw [hMid]
      _ = pcCore L := (pcCore_of_contains hc).symm
  · right
    rw [hr]
    have hDne : (L.map patchLine).dropLast ≠ [] := by
      intro h
      have := congrArg List.length h
      simp only [List.length_dropLast, List.length_nil] at this
      omega
    have hD : L.map patchLine = (L.map patchLine).dropLast ++ [[]] :=
      eq_dropLast_append_of_getLast? hg
    have hbody : joinSep '\n' (L.map patchLine) =
        joinSep '\n' ((L.map patchLine).dropLast) ++ ['\n'] := by
      conv_lhs => rw [hD]
      rw [joinSep_append_single '\n' hDne []]
    have hcD : containsSeq staticOn (joinSep '\n' ((L.map patchLine).dropLast)) = true := by
      have h1 : containsSeq staticOn
          (joinSep '\n' ((L.map patchLine).dropLast) ++ ['\n']) = true := by
        rw [← hbody]
        exact hc
      exact containsSeq_drop_last (show ('\n') ∉ staticOn by decide) h1
    have hDid : ((L.map patchLine).dropLast).map patchLine = (L.map patchLine).dropLast :=
      map_patchLine_id fun m hm => hMun m ((List.dropLast_sublist _).subset hm)
    have hpcD : pcCore ((L.map patchLine).dropLast) =
        joinSep '\n' ((L.map patchLine).dropLast) :=
      calc pcCore ((L.map patchLine).dropLast)
          = joinSep '\n' (((L.map patchLine).dropLast).map patchLine) :=
            pcCore_of_contains (by rw [hDid]; exact hcD)
        _ = joinSep '\n' ((L.map patchLine).dropLast) := by rw [hDid]
    rw [hpcD, pcCore_of_contains hc]
    exact hbody.symm
  · right
    rw [hr]
    have hMne : L.map patchLine ≠ [] := by simpa using hL
    have hAid : (L.map patchLine ++ [staticOn]).map patchLine =
        L.map patchLine ++ [staticOn] := by
      apply map_patchLine_id
      intro m hm
      rcases List.mem_append.mp hm with h | h
      · exact hMun m h
      · simp only [List.mem_singleton] at h
        subst h
        decide
    have hA : joinSep '\n' (L.map patchLine ++ [staticOn]) =
        joinSep '\n' (L.map patchLine) ++ '\n' :: staticOn :=
      joinSep_append_single '\n' hMne staticOn
    have hcA : containsSeq staticOn (joinSep '\n' (L.map patchLine ++ [staticOn])) = true := by
      rw [hA]
      exact containsSeq_iff.mpr ⟨joinSep '\n' (L.map patchLine) ++ ['\n'], [], by simp⟩
    have hpcA : pcCore (L.map patchLine ++ [staticOn]) =
        joinSep '\n' (L.map patchLine) ++ '\n' :: staticOn :=
      calc pcCore (L.map patchLine ++ [staticOn])
          = joinSep '\n' ((L.map patchLine ++ [staticOn]).map patchLine) :=
            pcCore_of_contains (by rw [hAid]; exact hcA)
        _ = joinSep '\n' (L.map patchLine ++ [staticOn]) := by rw [hAid]
        _ = joinSep '\n' (L.map patchLine) ++ '\n' :: staticOn := hA
    rw [hpcA, pcCore_of_not_contains hc]
    simp
  · right
    subst hL
    rw [hr]
    decide

/-- The patched text always contains the enabled CONFIG_STATIC marker. -/
theorem containsSeq_pcCore (L : List (List Char)) :
    containsSeq staticOn (pcCore L) = true := by
  by_cases hc : containsSeq staticOn (joinSep '\n' (L.map patchLine)) = true
  · rw [pcCore_of_contains hc]
    exact hc
  · have hc' : containsSeq staticOn (joinSep '\n' (L.map patchLine)) = false :=
      Bool.not_eq_true _ ▸ Bool.of_not_eq_true hc
    rw [pcCore_of_not_contains hc']
    exact containsSeq_iff.mpr ⟨joinSep '\n' (L.map patchLine) ++ ['\n'], ['\n'], by simp⟩

/-- Pass-through of unmarked lines: a line of the input matching none of the
markers reappears unchanged at its position in the patched text's lines. -/
theorem pcCore_getD (L : List (List Char)) (h0 : ∀ l ∈ L, '\n' ∉ l)
    (hcr : ∀ l ∈ L, l.getLast? ≠ some '\r') (i : Nat) (hi : i < L.length)
    (hm : noMarkerHead (L.getD i []) = true) :
    (rustLines (pcCore L)).getD i [] = L.getD i [] := by
  have hmap : (L.map patchLine).getD i [] = L.getD i [] := by
    rw [getD_map_patchLine, patchLine_id hm]
  rcases rustLines_pcCore L h0 hcr with ⟨_, hr⟩ | ⟨_, hg, hlen, hr⟩ | ⟨_, _, hr⟩ | ⟨hL, _⟩
  · rw [hr]
    exact hmap
  · rw [hr]
    have hMlen : (L.map patchLine).length = L.length := List.length_map L patchLine
    have hD : L.map patchLine = (L.map patchLine).dropLast ++ [[]] :=
      eq_dropLast_append_of_getLast? hg
    have hlenD : (L.map patchLine).dropLast.length = (L.map patchLine).length - 1 :=
      List.length_dropLast _
    by_cases hi2 : i < (L.map patchLine).dropLast.length
    · have hstep : (L.map patchLine).getD i [] = ((L.map patchLine).dropLast).getD i [] := by
        conv_lhs => rw [hD]
        exact getD_append_left _ hi2 []
      rw [← hstep]
      exact hmap
    · have hieq : i = (L.map patchLine).dropLast.length := by omega
      rw [getD_of_length_le (by omega) []]
      have hMi : (L.map patchLine).getD i [] = [] := by
        conv_lhs => rw [hD, hieq]
        exact getD_append_at_length _ [] []
      rw [hmap] at hMi
      exact hMi.symm
  · rw [hr]
    have hiM : i < (L.map patchLine).length := by
      rw [List.length_map]
      exact hi
    rw [getD_append_left _ hiM []]
    exact hmap
  · subst hL
    simp at hi

/-! ### Split/join round trip for configuration names -/

theorem joinSep_splitOnChar (sep : Char) (s : List Char) :
    joinSep sep (splitOnChar sep s) = s := by
  induction s with
  | nil => rfl
  | cons c cs ih =>
    by_cases hc : c = sep
    · subst hc
      rw [show splitOnChar c (c :: cs) = [] :: splitOnChar c cs by simp [splitOnChar]]
      rw [joinSep_cons c [] (splitOnChar_ne_nil c cs)]
      simp [ih]
    · simp only [splitOnChar, if_neg hc]
      cases h : splitOnChar sep cs with
      | nil => exact absurd h (splitOnChar_ne_nil sep cs)
      | cons l ls =>
        simp only [consHead]
        cases ls with
        | nil =>
          rw [h] at ih
          simp only [joinSep] at ih ⊢
          simp [ih]
        | cons l' ls' =>
          rw [joinSep_cons sep (c :: l) (by simp)]
          rw [h, joinSep_cons sep l (by simp)] at ih
          simp [← ih]

theorem parseConfigName_arch {a : List Char} (h : '-' ∉ a) (v : List Char) :
    parseConfigName (a ++ '-' :: v) = (a, v) := by
  unfold parseConfigName
  rw [splitOnChar_append_sep h]
  simp [joinSep_splitOnChar]

theorem isValidConfig_no_dash (oracle : List Char → List Char → Bool)
    {name : List Char} (h : '-' ∉ name) : isValidConfig oracle name = false := by
  unfold isValidConfig
  rw [splitOnChar_no_sep h]
  simp

/-! ### Trace lemmas for the rootfs assembly -/

theorem createRootfsForConfig_eq (e : RootfsEnv) (hb : e.busyboxInstallOk = true) :
    createRootfsForConfig e = rootfsLead e ++ createRootfsImage e.img := by
  unfold createRootfsForConfig rootfsLead
  rw [hb, if_neg (by decide : ¬ (true = false))]
  simp [List.append_assoc]

theorem rootfsLead_no_img_steps (e : RootfsEnv) :
    RfStep.msgImgSuccess ∉ rootfsLead e ∧ RfStep.mkfsRun ∉ rootfsLead e ∧
    RfStep.mountRun ∉ rootfsLead e ∧ RfStep.copyRun ∉ rootfsLead e := by
  unfold rootfsLead createInitScript bootImageSteps
  rcases hfb : firstBootImage e with _ | i <;> split_ifs <;> simp

theorem img_mem_iff (ie : ImgEnv) :
    (RfStep.mkfsRun ∈ createRootfsImage ie ↔ ie.ddOk = true) ∧
    (RfStep.mountRun ∈ createRootfsImage ie ↔ (ie.ddOk = true ∧ ie.mkfsOk = true)) ∧
    (RfStep.copyRun ∈ createRootfsImage ie ↔
      (ie.ddOk = true ∧ ie.mkfsOk = true ∧ ie.mountOk = true)) ∧
    (RfStep.msgImgSuccess ∈ createRootfsImage ie ↔
      (ie.ddOk = true ∧ ie.mkfsOk = true ∧ ie.mountOk = true ∧
        ie.copyStatus = some true)) ∧
    RfStep.ddRun ∈ createRootfsImage ie ∧
    ((ie.ddOk = true ∧ ie.mkfsOk = true ∧ ie.mountOk = true ∧
        ie.copyStatus = some true ∧ ie.chownOk = false) →
      RfStep.warnChownFail ∈ createRootfsImage ie) := by
  obtain ⟨d, m, mo, rc, cs, ch⟩ := ie
  cases d <;> cases m <;> cases mo <;> cases rc <;> cases ch <;>
    rcases cs with _ | (_ | _) <;> decide

/-! ### Trace lemmas for the kernel build -/

theorem kernelTargetFor_arm64 : kernelTargetFor (lit "arm64") = lit "Image" := by
  unfold kernelTargetFor
  rw [if_pos rfl]

theorem kernelTargetFor_x86 : kernelTargetFor (lit "x86") = lit "bzImage" := by
  unfold kernelTargetFor
  rw [if_neg (by decide), if_pos rfl]

theorem kernelTargetFor_other {a : List Char} (h1 : a ≠ lit "arm64")
    (h2 : a ≠ lit "x86") : kernelTargetFor a = lit "bzImage" := by
  unfold kernelTargetFor
  rw [if_neg h1, if_neg h2]

theorem buildLinux_eq_ok (cn : List Char) (e : KernelEnv) (h1 : e.configExists = true)
    (h2 : e.makeOk = true) :
    buildLinuxForConfig cn e =
      KStep.mkBuildDir :: KStep.copyConfigFile :: KStep.runMake ::
        (copyKernelImage cn (parseConfigName cn).1
            (kernelTargetFor (parseConfigName cn).1) [lit "build", cn, lit "linux"] e
          ++ [KStep.busyboxAndRootfs]) := by
  unfold buildLinuxForConfig
  rw [h1, h2, if_neg (by decide : ¬ (true = false)), if_neg (by decide : ¬ (true = false))]

theorem copyKernelImage_arm64 (cn tgt : List Char) (bd : List (List Char))
    (e : KernelEnv) :
    copyKernelImage cn (lit "arm64") tgt bd e =
      KStep.mkOutputDir ::
        copyImageSteps (bd ++ [lit "arch", lit "arm64", lit "boot", lit "Image"])
          [lit "build", cn, tgt] e := by
  unfold copyKernelImage
  rw [if_pos rfl]

theorem copyKernelImage_x86 (cn tgt : List Char) (bd : List (List Char))
    (e : KernelEnv) :
    copyKernelImage cn (lit "x86") tgt bd e =
      KStep.mkOutputDir ::
        copyImageSteps (bd ++ [lit "arch", lit "x86", lit "boot", lit "bzImage"])
          [lit "build", cn, tgt] e := by
  unfold copyKernelImage
  rw [if_neg (by decide), if_pos rfl]

theorem copyKernelImage_other {arch : List Char} (cn tgt : List Char)
    (bd : List (List Char)) (e : KernelEnv) (h1 : arch ≠ lit "arm64")
    (h2 : arch ≠ lit "x86") :
    copyKernelImage cn arch tgt bd e = [KStep.mkOutputDir, KStep.warnUnsupportedArch] := by
  unfold copyKernelImage
  rw [if_neg h1, if_neg h2]

theorem copyImageSteps_found (src dst : List (List Char)) (e : KernelEnv)
    (h : e.imageExists = true) :
    copyImageSteps src dst e =
      KStep.copyImage src dst ::
        (if e.imageCopyOk then [KStep.msgImageCopied] else [KStep.msgImageCopyFail]) := by
  unfold copyImageSteps
  rw [h, if_neg (by decide : ¬ (true = false))]

theorem copyImageSteps_missing (src dst : List (List Char)) (e : KernelEnv)
    (h : e.imageExists = false) :
    copyImageSteps src dst e = [KStep.warnImageNotFound] := by
  unfold copyImageSteps
  rw [h, if_pos rfl]

/-! ### Lemmas about toolchain resolution -/

theorem getArchConfig_kernelArch (t host : List Char) (probeOk : List Char → Bool) :
    (getArchConfig t host probeOk).kernelArch = kernelArchName t := by
  unfold getArchConfig
  split_ifs <;> rfl

/-! ### The claims -/

/-- C1: in create_rootfs_image, for every outcome of the copy step and the
ownership-fix step, if the dd, mkfs and loop-mount steps succeeded (so the
image was mounted), then exactly one unmount attempt is made before the
assembly step returns. -/
theorem claim_c1_mount_unmount_pairing (e : ImgEnv) (hdd : e.ddOk = true)
    (hmk : e.mkfsOk = true) (hmo : e.mountOk = true) :
    (createRootfsImage e).count RfStep.umountRun = 1 := by
  obtain ⟨d, m, mo, rc, cs, ch⟩ := e
  simp only at hdd hmk hmo
  subst hdd hmk hmo
  cases rc <;> cases ch <;> rcases cs with _ | (_ | _) <;> decide

theorem claim_c1_witness :
    (createRootfsImage ⟨true, true, true, false, some false, false⟩).count
      RfStep.umountRun = 1 :=
  claim_c1_mount_unmount_pairing ⟨true, true, true, false, some false, false⟩ rfl rfl rfl

/-- C2: the image size computed by create_rootfs_image equals the larger of
the additive margin (staging + 200) and the multiplicative margin
(⌈staging × 1.3⌉), and hence is at least each of them, for every staging
size including zero. -/
theorem claim_c2_image_size_margins (s : Nat) :
    imageSizeMB s = max (s + 200) ((13 * s + 9) / 10) ∧
    s + 200 ≤ imageSizeMB s ∧ (13 * s + 9) / 10 ≤ imageSizeMB s := by
  refine ⟨?_, ?_, ?_⟩
  · simp only [imageSizeMB]
    rw [Nat.max_def]
    split_ifs <;> omega
  · simp only [imageSizeMB]
    split_ifs <;> omega
  · simp only [imageSizeMB]
    split_ifs <;> omega

/-- C3 (counterexample): applying the patcher twice to the empty
configuration text does not reproduce the once-patched text — the second
pass drops the trailing newline that the append step added. -/
theorem claim_c3_counterexample :
    patchConfig (patchConfig []) ≠ patchConfig [] := by decide

/-- C3 (amended): for every configuration text none of whose lines carries a
trailing carriage return, applying the patcher twice yields the once-patched
text except possibly for the loss of its final newline: either the two
outputs are equal, or the twice-patched text followed by a newline equals
the once-patched text. -/
theorem claim_c3_patcher_idempotent (x : List Char)
    (H : ∀ l ∈ rustLines x, l.getLast? ≠ some '\r') :
    patchConfig (patchConfig x) = patchConfig x ∨
    patchConfig (patchConfig x) ++ ['\n'] = patchConfig x := by
  unfold patchConfig
  exact pcCore_twice (rustLines x) mem_rustLines_no_nl H

theorem claim_c3_witness :
    patchConfig (patchConfig (lit "# CONFIG_STATIC is not set\nCONFIG_TC=y\n")) =
      patchConfig (lit "# CONFIG_STATIC is not set\nCONFIG_TC=y\n") ∨
    patchConfig (patchConfig (lit "# CONFIG_STATIC is not set\nCONFIG_TC=y\n")) ++ ['\n'] =
      patchConfig (lit "# CONFIG_STATIC is not set\nCONFIG_TC=y\n") :=
  claim_c3_patcher_idempotent (lit "# CONFIG_STATIC is not set\nCONFIG_TC=y\n") (by decide)

/-- C4 (counterexample): a final line ending in a bare carriage return does
not pass through the patcher unchanged — re-joining turns its `\r` into part
of a `\r\n` terminator, so the corresponding output line loses the `\r`. -/
theorem claim_c4_counterexample :
    rustLines (lit "a\r") = [lit "a\r"] ∧
    noMarkerHead (lit "a\r") = true ∧
    (rustLines (patchConfig (lit "a\r"))).getD 0 [] = lit "a" ∧
    lit "a" ≠ lit "a\r" := by decide

/-- C4 (amended): the patched text always contains the enabled marker
CONFIG_STATIC=y, even when the input contained neither marker for
CONFIG_STATIC (it is appended at the end); and for inputs none of whose
lines ends in a carriage return, every input line matching no recognized
marker reappears unchanged at its position among the output's lines. -/
theorem claim_c4_patch_completeness (x : List Char) :
    containsSeq staticOn (patchConfig x) = true ∧
    ((∀ l ∈ rustLines x, l.getLast? ≠ some '\r') →
      ∀ i, i < (rustLines x).length →
        noMarkerHead ((rustLines x).getD i []) = true →
        (rustLines (patchConfig x)).getD i [] = (rustLines x).getD i []) := by
  refine ⟨containsSeq_pcCore (rustLines x), ?_⟩
  intro H i hi hm
  exact pcCore_getD (rustLines x) mem_rustLines_no_nl H i hi hm

theorem claim_c4_witness :
    containsSeq staticOn (patchConfig (lit "CONFIG_TC=y\nfoo")) = true ∧
    (rustLines (patchConfig (lit "CONFIG_TC=y\nfoo"))).getD 1 [] = lit "foo" := by
  have h := claim_c4_patch_completeness (lit "CONFIG_TC=y\nfoo")
  refine ⟨h.1, ?_⟩
  have h2 := h.2 (by decide) 1 (by decide) (by decide)
  rw [h2]
  decide

/-- C5: get_arch_config maps target "x86" to kernel architecture "x86_64",
with no cross-compile value whenever the host starts with "x86_64" or equals
"i686"; it maps target "arm64" to kernel architecture "arm64", with no
cross-compile value exactly when the host is "aarch64" and with the fixed
value "aarch64-linux-gnu-" for every other host; unknown targets pass
through unchanged as the kernel architecture. -/
theorem claim_c5_arch_mapping :
    (∀ host probeOk,
      (getArchConfig (lit "x86") host probeOk).kernelArch = lit "x86_64" ∧
      (((lit "x86_64").isPrefixOf host = true ∨ host = lit "i686") →
        (getArchConfig (lit "x86") host probeOk).crossComp = none)) ∧
    (∀ host probeOk,
      (getArchConfig (lit "arm64") host probeOk).kernelArch = lit "arm64" ∧
      ((getArchConfig (lit "arm64") host probeOk).crossComp = none ↔
        host = lit "aarch64") ∧
      (host ≠ lit "aarch64" →
        (getArchConfig (lit "arm64") host probeOk).crossComp =
          some (lit "aarch64-linux-gnu-"))) ∧
    (∀ t host probeOk, t ≠ lit "x86" → t ≠ lit "arm64" →
      (getArchConfig t host probeOk).kernelArch = t) := by
  have harm : ∀ host probeOk, host ≠ lit "aarch64" →
      (getArchConfig (lit "arm64") host probeOk).crossComp =
        some (lit "aarch64-linux-gnu-") := by
    intro host probeOk hne
    have c1 : ¬(lit "arm64" = lit "x86" ∧
        ((lit "x86_64").isPrefixOf host = true ∨ host = lit "i686")) :=
      fun h => absurd h.1 (by decide)
    have c2 : ¬(lit "arm64" = lit "arm64" ∧ host = lit "aarch64") := fun h => hne h.2
    unfold getArchConfig
    rw [if_neg c1, if_neg c2, if_pos rfl]
    split_ifs <;> rfl
  refine ⟨?_, ?_, ?_⟩
  · intro host probeOk
    constructor
    · rw [getArchConfig_kernelArch]
      decide
    · intro hcond
      unfold getArchConfig
      rw [if_pos ⟨rfl, hcond⟩]
  · intro host probeOk
    refine ⟨?_, ?_, harm host probeOk⟩
    · rw [getArchConfig_kernelArch]
      decide
    · constructor
      · intro hnone
        by_contra hne
        rw [harm host probeOk hne] at hnone
        simp at hnone
      · intro hhost
        have c1 : ¬(lit "arm64" = lit "x86" ∧
            ((lit "x86_64").isPrefixOf host = true ∨ host = lit "i686")) :=
          fun h => absurd h.1 (by decide)
        unfold getArchConfig
        rw [if_neg c1, if_pos ⟨rfl, hhost⟩]
  · intro t host probeOk h1 h2
    rw [getArchConfig_kernelArch]
    unfold kernelArchName
    rw [if_neg h1, if_neg h2]

theorem claim_c5_witness :
    (getArchConfig (lit "x86") (lit "x86_64") (fun _ => false)).crossComp = none ∧
    (getArchConfig (lit "arm64") (lit "riscv64") (fun _ => true)).crossComp =
      some (lit "aarch64-linux-gnu-") ∧
    (getArchConfig (lit "riscv") (lit "x86_64") (fun _ => true)).kernelArch =
      lit "riscv" := by
  refine ⟨?_, ?_, ?_⟩
  · exact (claim_c5_arch_mapping.1 (lit "x86_64") (fun _ => false)).2 (Or.inl (by decide))
  · exact (claim_c5_arch_mapping.2.1 (lit "riscv64") (fun _ => true)).2.2 (by decide)
  · exact claim_c5_arch_mapping.2.2 (lit "riscv") (lit "x86_64") (fun _ => true)
      (by decide) (by decide)

/-- C6 (counterexample): for target "x86" cross-compiling on an aarch64 host
with the search-path probe failing, get_arch_config returns no cross-compile
value at all — not the fixed "x86_64-linux-gnu-" prefix the claim asserts —
while still emitting only a warning. -/
theorem claim_c6_counterexample :
    (getArchConfig (lit "x86") (lit "aarch64") (fun _ => false)).crossComp = none ∧
    (getArchConfig (lit "x86") (lit "aarch64") (fun _ => false)).warnings ≠ [] := by
  decide

/-- C6 (amended): when the cross-compiler probe fails for a target that
requires cross-compilation, get_arch_config returns normally with only a
warning: for target "arm64" it still returns the fixed prefix
"aarch64-linux-gnu-"; for target "x86" it returns no prefix (native
compilation is attempted instead).  No fatal error arises in either case. -/
theorem claim_c6_probe_failure_behavior (host : List Char)
    (probeOk : List Char → Bool) :
    (host ≠ lit "aarch64" → probeOk (lit "aarch64-linux-gnu-gcc") = false →
      (getArchConfig (lit "arm64") host probeOk).crossComp =
        some (lit "aarch64-linux-gnu-") ∧
      (getArchConfig (lit "arm64") host probeOk).warnings ≠ []) ∧
    (¬((lit "x86_64").isPrefixOf host = true ∨ host = lit "i686") →
      probeOk (lit "x86_64-linux-gnu-gcc") = false →
      (getArchConfig (lit "x86") host probeOk).crossComp = none ∧
      (getArchConfig (lit "x86") host probeOk).warnings ≠ []) := by
  constructor
  · intro hne hp
    have c1 : ¬(lit "arm64" = lit "x86" ∧
        ((lit "x86_64").isPrefixOf host = true ∨ host = lit "i686")) :=
      fun h => absurd h.1 (by decide)
    have c2 : ¬(lit "arm64" = lit "arm64" ∧ host = lit "aarch64") := fun h => hne h.2
    unfold getArchConfig
    rw [if_neg c1, if_neg c2, if_pos rfl, hp, if_neg (by decide : ¬ (false = true))]
    exact ⟨rfl, by decide⟩
  · intro hnative hp
    have c1 : ¬(lit "x86" = lit "x86" ∧
        ((lit "x86_64").isPrefixOf host = true ∨ host = lit "i686")) :=
      fun h => hnative h.2
    have c2 : ¬(lit "x86" = lit "arm64" ∧ host = lit "aarch64") :=
      fun h => absurd h.1 (by decide)
    unfold getArchConfig
    rw [if_neg c1, if_neg c2, if_neg (by decide : ¬ lit "x86" = lit "arm64"), if_pos rfl,
      hp, if_neg (by decide : ¬ (false = true))]
    exact ⟨rfl, by decide⟩

theorem claim_c6_witness :
    (getArchConfig (lit "arm64") (lit "riscv64") (fun _ => false)).crossComp =
      some (lit "aarch64-linux-gnu-") ∧
    (getArchConfig (lit "x86") (lit "riscv64") (fun _ => false)).crossComp = none := by
  have h := claim_c6_probe_failure_behavior (lit "riscv64") (fun _ => false)
  exact ⟨(h.1 (by decide) rfl).1, (h.2 (by decide) rfl).1⟩

/-- C7: when the seed config file for the requested configuration is absent,
build_linux_for_config reports the not-found condition and returns at once:
the trace is exactly the report, with no build-directory creation and no
config copy. -/
theorem claim_c7_config_not_found (configName : List Char) (e : KernelEnv)
    (h : e.configExists = false) :
    buildLinuxForConfig configName e = [KStep.reportConfigNotFound] ∧
    KStep.mkBuildDir ∉ buildLinuxForConfig configName e ∧
    KStep.copyConfigFile ∉ buildLinuxForConfig configName e := by
  have ht : buildLinuxForConfig configName e = [KStep.reportConfigNotFound] := by
    unfold buildLinuxForConfig
    rw [h, if_pos rfl]
  exact ⟨ht, by rw [ht]; decide, by rw [ht]; decide⟩

theorem claim_c7_witness :
    buildLinuxForConfig (lit "arm64-qemu") ⟨false, true, true, true⟩ =
      [KStep.reportConfigNotFound] ∧
    KStep.mkBuildDir ∉ buildLinuxForConfig (lit "arm64-qemu") ⟨false, true, true, true⟩ ∧
    KStep.copyConfigFile ∉
      buildLinuxForConfig (lit "arm64-qemu") ⟨false, true, true, true⟩ :=
  claim_c7_config_not_found (lit "arm64-qemu") ⟨false, true, true, true⟩ rfl

/-- C8: a failing module-install does not stop the rootfs assembly — it is
only reported, and the pipeline still writes the init script and proceeds to
image creation (dd), formatting, mounting and content copy as far as each
preceding step succeeds; the final success message appears exactly when the
allocation, format, mount and copy all succeeded, independently of the
ownership fix, whose failure yields only a warning. -/
theorem claim_c8_module_failure_nonfatal (e : RootfsEnv)
    (hb : e.busyboxInstallOk = true) (hm : e.modulesInstallOk = false) :
    RfStep.msgModulesInstallFail ∈ createRootfsForConfig e ∧
    RfStep.writeInitScript ∈ createRootfsForConfig e ∧
    RfStep.ddRun ∈ createRootfsForConfig e ∧
    (e.img.ddOk = true → RfStep.mkfsRun ∈ createRootfsForConfig e) ∧
    (e.img.ddOk = true → e.img.mkfsOk = true →
      RfStep.mountRun ∈ createRootfsForConfig e) ∧
    (e.img.ddOk = true → e.img.mkfsOk = true → e.img.mountOk = true →
      RfStep.copyRun ∈ createRootfsForConfig e) ∧
    (RfStep.msgImgSuccess ∈ createRootfsForConfig e ↔
      (e.img.ddOk = true ∧ e.img.mkfsOk = true ∧ e.img.mountOk = true ∧
        e.img.copyStatus = some true)) ∧
    (e.img.ddOk = true → e.img.mkfsOk = true → e.img.mountOk = true →
      e.img.copyStatus = some true → e.img.chownOk = false →
      RfStep.warnChownFail ∈ createRootfsForConfig e) := by
  have heq := createRootfsForConfig_eq e hb
  have him := img_mem_iff e.img
  have hno := rootfsLead_no_img_steps e
  refine ⟨?_, ?_, ?_, ?_, ?_, ?_, ?_, ?_⟩
  · rw [heq]
    refine List.mem_append_left _ ?_
    simp [rootfsLead, hm]
  · rw [heq]
    exact List.mem_append_left _ (by simp [rootfsLead, createInitScript])
  · rw [heq]
    exact List.mem_append_right _ him.2.2.2.2.1
  · intro h1
    rw [heq]
    exact List.mem_append_right _ (him.1.mpr h1)
  · intro h1 h2
    rw [heq]
    exact List.mem_append_right _ (him.2.1.mpr ⟨h1, h2⟩)
  · intro h1 h2 h3
    rw [heq]
    exact List.mem_append_right _ (him.2.2.1.mpr ⟨h1, h2, h3⟩)
  · rw [heq]
    constructor
    · intro hmem
      rcases List.mem_append.mp hmem with hl | hi
      · exact absurd hl hno.1
      · exact him.2.2.2.1.mp hi
    · intro hc
      exact List.mem_append_right _ (him.2.2.2.1.mpr hc)
  · intro h1 h2 h3 h4 h5
    rw [heq]
    exact List.mem_append_right _ (him.2.2.2.2.2 ⟨h1, h2, h3, h4, h5⟩)

theorem claim_c8_witness :
    RfStep.msgImgSuccess ∈
      createRootfsForConfig
        ⟨true, true, false, true, false, false, false, false, true, true,
          ⟨true, true, true, true, some true, false⟩⟩ :=
  ((claim_c8_module_failure_nonfatal
      ⟨true, true, false, true, false, false, false, false, true, true,
        ⟨true, true, true, true, some true, false⟩⟩
      rfl rfl).2.2.2.2.2.2.1).mpr ⟨rfl, rfl, rfl, rfl⟩

/-- C9 (counterexample): for a configuration whose architecture is
unrecognized ("riscv"), the build with every step succeeding and the image
present performs no kernel-image copy at all — it emits an
unsupported-architecture warning instead of copying from the fixed
arch/<arch>/boot sub-path as the claim asserts. -/
theorem claim_c9_counterexample :
    buildLinuxForConfig (lit "riscv-foo") ⟨true, true, true, true⟩ =
      [KStep.mkBuildDir, KStep.copyConfigFile, KStep.runMake, KStep.mkOutputDir,
        KStep.warnUnsupportedArch, KStep.busyboxAndRootfs] ∧
    (buildLinuxForConfig (lit "riscv-foo") ⟨true, true, true, true⟩).all
      (fun st => !(isCopyImage st)) = true := by decide

/-- C9 (amended): the kernel build selects the fixed image target "Image"
for arm64, "bzImage" for x86 and "bzImage" as the fallback for unrecognized
architectures; on build success, for arm64 and x86 the image is copied from
build/<cfg>/linux/arch/<arch>/boot/<fixed name> into build/<cfg>/<target>,
with only a warning (and no copy) when the image file is absent; for
unrecognized architectures the copy step is skipped with a warning; in every
case the busybox/rootfs stage still proceeds. -/
theorem claim_c9_kernel_image_selection :
    (kernelTargetFor (lit "arm64") = lit "Image" ∧
      kernelTargetFor (lit "x86") = lit "bzImage" ∧
      (∀ a, a ≠ lit "arm64" → a ≠ lit "x86" → kernelTargetFor a = lit "bzImage")) ∧
    (∀ v e, e.configExists = true → e.makeOk = true → e.imageExists = true →
      KStep.copyImage
        [lit "build", lit "arm64" ++ '-' :: v, lit "linux", lit "arch", lit "arm64",
          lit "boot", lit "Image"]
        [lit "build", lit "arm64" ++ '-' :: v, lit "Image"]
      ∈ buildLinuxForConfig (lit "arm64" ++ '-' :: v) e) ∧
    (∀ v e, e.configExists = true → e.makeOk = true → e.imageExists = true →
      KStep.copyImage
        [lit "build", lit "x86" ++ '-' :: v, lit "linux", lit "arch", lit "x86",
          lit "boot", lit "bzImage"]
        [lit "build", lit "x86" ++ '-' :: v, lit "bzImage"]
      ∈ buildLinuxForConfig (lit "x86" ++ '-' :: v) e) ∧
    (∀ v e, e.configExists = true → e.makeOk = true → e.imageExists = false →
      KStep.warnImageNotFound ∈ buildLinuxForConfig (lit "arm64" ++ '-' :: v) e ∧
      (buildLinuxForConfig (lit "arm64" ++ '-' :: v) e).all
        (fun st => !(isCopyImage st)) = true) ∧
    (∀ v e, e.configExists = true → e.makeOk = true → e.imageExists = false →
      KStep.warnImageNotFound ∈ buildLinuxForConfig (lit "x86" ++ '-' :: v) e ∧
      (buildLinuxForConfig (lit "x86" ++ '-' :: v) e).all
        (fun st => !(isCopyImage st)) = true) ∧
    (∀ a v e, '-' ∉ a → a ≠ lit "arm64" → a ≠ lit "x86" →
      e.configExists = true → e.makeOk = true →
      KStep.warnUnsupportedArch ∈ buildLinuxForConfig (a ++ '-' :: v) e ∧
      (buildLinuxForConfig (a ++ '-' :: v) e).all
        (fun st => !(isCopyImage st)) = true) ∧
    (∀ cn e, e.configExists = true → e.makeOk = true →
      KStep.busyboxAndRootfs ∈ buildLinuxForConfig cn e) := by
  refine ⟨⟨kernelTargetFor_arm64, kernelTargetFor_x86,
    fun a h1 h2 => kernelTargetFor_other h1 h2⟩, ?_, ?_, ?_, ?_, ?_, ?_⟩
  · intro v e h1 h2 h3
    rw [buildLinux_eq_ok _ _ h1 h2,
      parseConfigName_arch (by decide : ('-') ∉ lit "arm64") v]
    simp only [kernelTargetFor_arm64, copyKernelImage_arm64,
      copyImageSteps_found _ _ _ h3]
    simp
  · intro v e h1 h2 h3
    rw [buildLinux_eq_ok _ _ h1 h2,
      parseConfigName_arch (by decide : ('-') ∉ lit "x86") v]
    simp only [kernelTargetFor_x86, copyKernelImage_x86,
      copyImageSteps_found _ _ _ h3]
    simp
  · intro v e h1 h2 h3
    rw [buildLinux_eq_ok _ _ h1 h2,
      parseConfigName_arch (by decide : ('-') ∉ lit "arm64") v]
    simp only [kernelTargetFor_arm64, copyKernelImage_arm64,
      copyImageSteps_missing _ _ _ h3]
    constructor
    · simp
    · decide
  · intro v e h1 h2 h3
    rw [buildLinux_eq_ok _ _ h1 h2,
      parseConfigName_arch (by decide : ('-') ∉ lit "x86") v]
    simp only [kernelTargetFor_x86, copyKernelImage_x86,
      copyImageSteps_missing _ _ _ h3]
    constructor
    · simp
    · decide
  · intro a v e ha hne1 hne2 h1 h2
    rw [buildLinux_eq_ok _ _ h1 h2, parseConfigName_arch ha v,
      copyKernelImage_other _ _ _ _ hne1 hne2]
    constructor
    · simp
    · decide
  · intro cn e h1 h2
    rw [buildLinux_eq_ok _ _ h1 h2]
    simp

theorem claim_c9_witness :
    (KStep.copyImage
      [lit "build", lit "arm64" ++ '-' :: lit "qemu", lit "linux", lit "arch",
        lit "arm64", lit "boot", lit "Image"]
      [lit "build", lit "arm64" ++ '-' :: lit "qemu", lit "Image"]
    ∈ buildLinuxForConfig (lit "arm64" ++ '-' :: lit "qemu") ⟨true, true, true, true⟩) ∧
    KStep.warnUnsupportedArch ∈
      buildLinuxForConfig (lit "riscv" ++ '-' :: lit "qemu") ⟨true, true, true, true⟩ :=
  ⟨claim_c9_kernel_image_selection.2.1 (lit "qemu") ⟨true, true, true, true⟩ rfl rfl rfl,
    (claim_c9_kernel_image_selection.2.2.2.2.2.1 (lit "riscv") (lit "qemu")
      ⟨true, true, true, true⟩ (by decide) (by decide) (by decide) rfl rfl).1⟩

/-- C10: configuration-name parsing splits at '-', returning the first
component as architecture and the rest re-joined with '-' as variant: for a
dash-free architecture a and any variant n, parsing a ++ "-" ++ n gives
exactly (a, n); and is_valid_config rejects every dash-free name without
consulting the filesystem (the result is false for every existence
oracle). -/
theorem claim_c10_config_name_parsing (a n name : List Char)
    (oracle1 oracle2 : List Char → List Char → Bool)
    (ha : '-' ∉ a) (hn : '-' ∉ name) :
    parseConfigName (a ++ '-' :: n) = (a, n) ∧
    isValidConfig oracle1 name = false ∧
    isValidConfig oracle1 name = isValidConfig oracle2 name := by
  refine ⟨parseConfigName_arch ha n, isValidConfig_no_dash oracle1 hn, ?_⟩
  rw [isValidConfig_no_dash oracle1 hn, isValidConfig_no_dash oracle2 hn]

theorem claim_c10_witness :
    parseConfigName (lit "arm64" ++ '-' :: lit "qemu") = (lit "arm64", lit "qemu") ∧
    isValidConfig (fun _ _ => true) (lit "noseparator") = false ∧
    isValidConfig (fun _ _ => true) (lit "noseparator") =
      isValidConfig (fun _ _ => false) (lit "noseparator") :=
  claim_c10_config_name_parsing (lit "arm64") (lit "qemu") (lit "noseparator")
    (fun _ _ => true) (fun _ _ => false) (by decide) (by decide)
